import Mathlib

/-!
Verification of the libtextclassifier2 core (span algebra, cached feature
matrix, bounds-sensitive span chunker, conflict resolver) against its
natural-language specification.

The C++ sources are shallowly embedded: spans over token or codepoint
indices become a `Span` structure over `Int` (C `int` indices; the code
relies on them not overflowing), `float` feature values and scores become
`ℚ` (the properties checked here compare and add small exact values, no
rounding behaviour is at stake), fallible calls become `Option`.
-/

namespace LibTextClassifier

/-- A half-open interval `[first, second)` over token or codepoint indices.
Embeds `TokenSpan` / `CodepointSpan` from `types.h`. -/
structure Span where
  first : Int
  second : Int
deriving DecidableEq, Repr

instance : Inhabited Span := ⟨⟨0, 0⟩⟩

/-- `TokenSpanSize` from `types.h`: `second - first`. -/
def tokenSpanSize (s : Span) : Int := s.second - s.first

/-- `SingleTokenSpan` from `types.h`: the span `[i, i+1)`. -/
def singleTokenSpan (i : Int) : Span := ⟨i, i + 1⟩

/-- `IntersectTokenSpans` from `types.h`:
`[max firsts, min seconds)`. -/
def intersectTokenSpans (a b : Span) : Span :=
  ⟨max a.first b.first, min a.second b.second⟩

/-- `ExpandTokenSpan` from `types.h`: grow a span by `l` tokens on the left
and `r` tokens on the right. -/
def expandTokenSpan (s : Span) (l r : Int) : Span :=
  ⟨s.first - l, s.second + r⟩

/-- Modelled from the spec: `SpansOverlap` is declared and used by
`text-classifier.cc` but its definition is not among the provided sources.
The spec treats spans as half-open intervals and overlap as non-empty
intersection, which for `[a.first, a.second)` and `[b.first, b.second)` is
`a.first < b.second ∧ b.first < a.second`. -/
def spansOverlap (a b : Span) : Bool :=
  a.first < b.second && b.first < a.second

/-- The integers `a, a+1, ..., b-1`; empty when `b ≤ a`. Used to embed the
C++ `for (int i = a; i < b; ++i)` loops. -/
def intRange (a b : Int) : List Int :=
  (List.range (b - a).toNat).map (fun k : Nat => a + (k : Int))

theorem mem_intRange {a b i : Int} : i ∈ intRange a b ↔ a ≤ i ∧ i < b := by
  unfold intRange
  constructor
  · intro h
    obtain ⟨k, hk, rfl⟩ := List.mem_map.mp h
    have hk' := List.mem_range.mp hk
    omega
  · rintro ⟨h1, h2⟩
    exact List.mem_map.mpr
      ⟨(i - a).toNat, List.mem_range.mpr (by omega), by omega⟩

theorem intRange_eq_nil {a b : Int} (h : b ≤ a) : intRange a b = [] := by
  unfold intRange
  have hz : (b - a).toNat = 0 := by omega
  simp [hz]

theorem intRange_eq_cons {a b : Int} (h : a < b) :
    intRange a b = a :: intRange (a + 1) b := by
  unfold intRange
  have hn : (b - a).toNat = (b - (a + 1)).toNat + 1 := by omega
  rw [hn, List.range_succ_eq_map, List.map_cons, List.map_map]
  congr 1
  · simp
  · apply List.map_congr_left
    intro k _
    show a + ((k : Int) + 1) = a + 1 + (k : Int)
    ring

/-! ### Cached feature matrix (`cached-features.cc`)

`float` feature values are embedded as `ℚ`; the embedding backend
(`EmbeddingExecutor::AddEmbedding`) becomes a function returning the
embedded slice, `none` on failure. -/

/-- An embedding backend: sparse feature ids and the destination size, to
the embedded values (of that size), or `none` when embedding fails. -/
abbrev EmbedFn : Type := List Int → Nat → Option (List ℚ)

/-- `PopulateTokenFeatures` from `cached-features.cc`: embed the sparse
features into the first `feature_vector_size - dense_features.size()` slots
of a row and copy the dense features into the remaining slots. -/
def populateTokenFeatures (sparseFeatures : List Int) (denseFeatures : List ℚ)
    (featureVectorSize : Nat) (embed : EmbedFn) : Option (List ℚ) :=
  match embed sparseFeatures (featureVectorSize - denseFeatures.length) with
  | none => none
  | some emb => some (emb ++ denseFeatures)

/-- `FeatureProcessorOptions_::BoundsSensitiveFeatures`: the window
configuration of the bounds-sensitive query. -/
structure BoundsSensitiveConfig where
  numTokensBefore : Int
  numTokensInsideLeft : Int
  numTokensInsideRight : Int
  numTokensAfter : Int
  includeInsideBag : Bool
  includeInsideLength : Bool
deriving DecidableEq, Repr

/-- The state built by `CachedFeatures::Create`: one feature row per token
of the extraction span plus a padding row.  The flat
`feature_vector_size * span_size` float buffer of the source is kept as a
list of rows; `output_features_size_` is not stored since the queries below
produce their output directly. -/
structure CachedFeatures where
  extractionSpan : Span
  config : BoundsSensitiveConfig
  features : List (List ℚ)
  paddingFeatures : List ℚ
deriving DecidableEq, Repr

/-- `CachedFeatures::NumFeaturesPerToken`: the padding row's length. -/
def CachedFeatures.numFeaturesPerToken (cf : CachedFeatures) : Nat :=
  cf.paddingFeatures.length

/-- Row `i` (an offset relative to the extraction span) of the feature
matrix.  The source reads `features_[i * N .. (i+1) * N)`; an out-of-range
`i` would read out of bounds there (callers stay in range), here it yields
a zero row. -/
def CachedFeatures.row (cf : CachedFeatures) (i : Int) : List ℚ :=
  if 0 ≤ i then cf.features.getD i.toNat (List.replicate cf.numFeaturesPerToken 0)
  else List.replicate cf.numFeaturesPerToken 0

/-- Collect a list of fallible row computations, failing when any one
fails (the `Create` loop aborts on the first failed embedding). -/
def collectRows : List (Option (List ℚ)) → Option (List (List ℚ))
  | [] => some []
  | none :: _ => none
  | some r :: rest => (collectRows rest).map (r :: ·)

/-- `CachedFeatures::Create`: requires feature version at least 2 when the
bounds-sensitive features are enabled (they are, in every use modelled
here), embeds each token row of the extraction span and the padding row;
fails when the backend fails. -/
def CachedFeatures.create (extractionSpan : Span)
    (sparseFeatures : List (List Int)) (denseFeatures : List (List ℚ))
    (paddingSparseFeatures : List Int) (paddingDenseFeatures : List ℚ)
    (config : BoundsSensitiveConfig) (embed : EmbedFn)
    (featureVectorSize : Nat) (featureVersion : Int) : Option CachedFeatures :=
  if featureVersion < 2 then none
  else
    match
      collectRows ((List.range (tokenSpanSize extractionSpan).toNat).map fun i =>
        populateTokenFeatures (sparseFeatures.getD i [])
          (denseFeatures.getD i []) featureVectorSize embed),
      populateTokenFeatures paddingSparseFeatures paddingDenseFeatures
        featureVectorSize embed with
    | some rows, some padding =>
        some ⟨extractionSpan, config, rows, padding⟩
    | _, _ => none

/-- `CachedFeatures::AppendFeaturesInternal`: emit the rows of
`intended_span`, reading the matrix only inside
`copy_span = intersect(intended_span, read_mask_span)` and emitting the
padding row for every position of the intended span outside it. -/
def CachedFeatures.appendFeaturesInternal (cf : CachedFeatures)
    (intendedSpan readMaskSpan : Span) : List ℚ :=
  let copySpan := intersectTokenSpans intendedSpan readMaskSpan
  (intRange intendedSpan.first copySpan.first).flatMap
      (fun _ => cf.paddingFeatures)
    ++ (intRange copySpan.first copySpan.second).flatMap cf.row
    ++ (intRange copySpan.second intendedSpan.second).flatMap
      (fun _ => cf.paddingFeatures)

/-- `CachedFeatures::AppendBagFeatures`: starting from a zero row, add
`row[j] / size(bag_span)` for every token of the bag span and every
feature `j`. -/
def CachedFeatures.appendBagFeatures (cf : CachedFeatures)
    (bagSpan : Span) : List ℚ :=
  (intRange bagSpan.first bagSpan.second).foldl
    (fun acc i =>
      List.zipWith (fun a x => a + x / (tokenSpanSize bagSpan : ℚ)) acc
        (cf.row i))
    (List.replicate cf.numFeaturesPerToken 0)

/-- The selected span translated to matrix-relative coordinates
(`selected_span.first/second -= extraction_span_.first`). -/
def CachedFeatures.relativeSpan (cf : CachedFeatures) (s : Span) : Span :=
  ⟨s.first - cf.extractionSpan.first, s.second - cf.extractionSpan.first⟩

/-- `CachedFeatures::AppendBoundsSensitiveFeaturesForSpan`: translate the
selected span to matrix-relative coordinates, emit the left window masked
to `[0, selected.second)`, the right window masked to
`[selected.first, extraction span size)`, then optionally the inside bag
row and the inside length scalar. -/
def CachedFeatures.appendBoundsSensitiveFeaturesForSpan (cf : CachedFeatures)
    (selectedSpan : Span) : List ℚ :=
  let sel : Span := cf.relativeSpan selectedSpan
  let c := cf.config
  cf.appendFeaturesInternal
      ⟨sel.first - c.numTokensBefore, sel.first + c.numTokensInsideLeft⟩
      ⟨0, sel.second⟩
    ++ cf.appendFeaturesInternal
      ⟨sel.second - c.numTokensInsideRight, sel.second + c.numTokensAfter⟩
      ⟨sel.first, tokenSpanSize cf.extractionSpan⟩
    ++ (if c.includeInsideBag then cf.appendBagFeatures sel else [])
    ++ (if c.includeInsideLength then [(tokenSpanSize sel : ℚ)] else [])

/-! #### The worked example of the spec (`CachedFeaturesTest.Simple`) -/

/-- The test's fake embedding backend: for a single sparse feature `id` and
destination size 2, produce `[id * 11, -id * 11]`. -/
def fakeEmbed : EmbedFn := fun sparse destSize =>
  match sparse with
  | [id] => if destSize = 2 then some [(id : ℚ) * 11, -(id : ℚ) * 11] else none
  | _ => none

/-- Per-token sparse features of the worked example: token `i` (0-based)
has sparse feature `i + 1`, for 9 tokens. -/
def testSparseFeatures : List (List Int) :=
  [[1], [2], [3], [4], [5], [6], [7], [8], [9]]

/-- Per-token dense features of the worked example: token `i` has dense
feature `(i + 1) * 0.1`, for 9 tokens. -/
def testDenseFeatures : List (List ℚ) :=
  [[1/10], [2/10], [3/10], [4/10], [5/10], [6/10], [7/10], [8/10], [9/10]]

/-- The worked example's window configuration:
`(before=2, inside_left=2, inside_right=2, after=2, bag=true, length=true)`. -/
def testConfig : BoundsSensitiveConfig :=
  ⟨2, 2, 2, 2, true, true⟩

/-- The worked example's cached feature matrix: extraction span `{3,9}`,
padding sparse feature `10203`, padding dense feature `321.0`, feature
vector size 3. -/
def testCachedFeatures : Option CachedFeatures :=
  CachedFeatures.create ⟨3, 9⟩ testSparseFeatures testDenseFeatures
    [10203] [321] testConfig fakeEmbed 3 2

/-- The matrix that `CachedFeatures::Create` builds in the worked example:
six rows (tokens 0..5 of the extraction span, each `[id*11, -id*11, dense]`)
plus the padding row. -/
def testMatrix : CachedFeatures :=
  ⟨⟨3, 9⟩, testConfig,
   [[11, -11, 1/10], [22, -22, 2/10], [33, -33, 3/10],
    [44, -44, 4/10], [55, -55, 5/10], [66, -66, 6/10]],
   [112233, -112233, 321]⟩

/-- C9. Span algebra: for every token span `a` and all integers `l` and `r`,
`size(expand(a, l, r)) = size(a) + l + r`. -/
theorem expandTokenSpan_size (a : Span) (l r : Int) :
    tokenSpanSize (expandTokenSpan a l r) = tokenSpanSize a + l + r := by
  simp [tokenSpanSize, expandTokenSpan]
  ring

/-- C1. Evaluation of the worked example at the failing input: the
bounds-sensitive query for `{5,8}` produces 28 values whose out-of-mask
positions are the padding row `112233, -112233, 321`, but whose inside-bag
row is the arithmetic mean `44, -44, 0.4` of the three inside rows — not
the sum `132, -132, 1.2` that the claim (and the repository's own
`cached-features_test.cc`, and the `cached-features.h` comment "The
features are summed") expects. -/
theorem cachedFeatures_get_5_8_eval :
    testCachedFeatures = some testMatrix ∧
    testMatrix.appendBoundsSensitiveFeaturesForSpan ⟨5, 8⟩ =
      [11, -11, 1/10, 22, -22, 1/5, 33, -33, 3/10, 44, -44, 2/5,
       44, -44, 2/5, 55, -55, 1/2, 66, -66, 3/5,
       112233, -112233, 321, 44, -44, 2/5, 3] ∧
    (testMatrix.appendBoundsSensitiveFeaturesForSpan ⟨5, 8⟩).length = 28 ∧
    (testMatrix.appendBoundsSensitiveFeaturesForSpan ⟨5, 8⟩).drop 24 ≠
      [132, -132, 6/5, 3] := by
  have heval : testMatrix.appendBoundsSensitiveFeaturesForSpan ⟨5, 8⟩ =
      [11, -11, 1/10, 22, -22, 1/5, 33, -33, 3/10, 44, -44, 2/5,
       44, -44, 2/5, 55, -55, 1/2, 66, -66, 3/5,
       112233, -112233, 321, 44, -44, 2/5, 3] := by
    simp [testMatrix, testConfig,
      CachedFeatures.appendBoundsSensitiveFeaturesForSpan,
      CachedFeatures.relativeSpan,
      CachedFeatures.appendFeaturesInternal, CachedFeatures.appendBagFeatures,
      CachedFeatures.row, CachedFeatures.numFeaturesPerToken,
      intersectTokenSpans, tokenSpanSize, intRange, List.range_succ]
    norm_num
  have hcreate : testCachedFeatures = some testMatrix := by
    norm_num [testCachedFeatures, CachedFeatures.create, collectRows,
      populateTokenFeatures, fakeEmbed, testSparseFeatures, testDenseFeatures,
      testMatrix, testConfig, tokenSpanSize, List.range_succ, Int.toNat_ofNat]
  refine ⟨hcreate, heval, by rw [heval]; rfl, by rw [heval]; norm_num⟩

theorem zipWith_getD (f : ℚ → ℚ → ℚ) :
    ∀ (a b : List ℚ) (j : Nat), j < a.length → j < b.length →
      (List.zipWith f a b).getD j 0 = f (a.getD j 0) (b.getD j 0) := by
  intro a
  induction a with
  | nil => intro b j h _; simp at h
  | cons x xs ih =>
      intro b j h1 h2
      cases b with
      | nil => simp at h2
      | cons y ys =>
          cases j with
          | zero => simp
          | succ j =>
              simp only [List.zipWith_cons_cons, List.getD_cons_succ]
              exact ih ys j (by simpa using h1) (by simpa using h2)

/-- The bag accumulation loop, characterized: starting from `acc`, folding
`acc[j] += row(i)[j] / c` over the indices `l` keeps the length and adds
`(∑ i in l, row(i)[j]) / c` to every entry. -/
theorem bagFold_characterization (row : Int → List ℚ) (c : ℚ) :
    ∀ (l : List Int) (acc : List ℚ),
      (∀ i ∈ l, (row i).length = acc.length) →
      (l.foldl (fun a i => List.zipWith (fun x y => x + y / c) a (row i))
          acc).length = acc.length ∧
      ∀ j < acc.length,
        (l.foldl (fun a i => List.zipWith (fun x y => x + y / c) a (row i))
            acc).getD j 0 =
          acc.getD j 0 + (l.map fun i => (row i).getD j 0).sum / c := by
  intro l
  induction l with
  | nil => intro acc _; simp
  | cons i is ih =>
      intro acc hlen
      have hi : (row i).length = acc.length := hlen i (by simp)
      have hacc' :
          (List.zipWith (fun x y => x + y / c) acc (row i)).length =
            acc.length := by
        simp [List.length_zipWith, hi]
      have hrest : ∀ i' ∈ is,
          (row i').length =
            (List.zipWith (fun x y => x + y / c) acc (row i)).length := by
        intro i' hi'
        rw [hacc']
        exact hlen i' (by simp [hi'])
      obtain ⟨ihlen, ihget⟩ := ih (List.zipWith (fun x y => x + y / c) acc (row i)) hrest
      constructor
      · simpa [hacc'] using ihlen
      · intro j hj
        have hj' : j < (List.zipWith (fun x y => x + y / c) acc (row i)).length := by
          omega
        have hstep := ihget j hj'
        simp only [List.foldl_cons]
        rw [hstep, zipWith_getD _ _ _ _ hj (by omega)]
        rw [List.map_cons, List.sum_cons, add_div]
        ring_nf

/-- C2. When `include_inside_bag` is enabled and the (matrix-relative)
selected span is non-empty, the bounds-sensitive query's output is the two
boundary windows followed by exactly one extra row of
`NumFeaturesPerToken` values and then the optional length scalar, and every
entry `j` of that extra row is the arithmetic mean — element-wise sum
divided by the span's token count — of the matrix rows strictly inside the
selected span. -/
theorem appendBagFeatures_is_mean (cf : CachedFeatures) (selectedSpan : Span)
    (hbag : cf.config.includeInsideBag = true)
    (hne : (cf.relativeSpan selectedSpan).first <
      (cf.relativeSpan selectedSpan).second)
    (hrows : ∀ i ∈ intRange (cf.relativeSpan selectedSpan).first
        (cf.relativeSpan selectedSpan).second,
      (cf.row i).length = cf.numFeaturesPerToken) :
    cf.appendBoundsSensitiveFeaturesForSpan selectedSpan =
      cf.appendFeaturesInternal
          ⟨(cf.relativeSpan selectedSpan).first - cf.config.numTokensBefore,
           (cf.relativeSpan selectedSpan).first + cf.config.numTokensInsideLeft⟩
          ⟨0, (cf.relativeSpan selectedSpan).second⟩
        ++ cf.appendFeaturesInternal
          ⟨(cf.relativeSpan selectedSpan).second - cf.config.numTokensInsideRight,
           (cf.relativeSpan selectedSpan).second + cf.config.numTokensAfter⟩
          ⟨(cf.relativeSpan selectedSpan).first, tokenSpanSize cf.extractionSpan⟩
        ++ cf.appendBagFeatures (cf.relativeSpan selectedSpan)
        ++ (if cf.config.includeInsideLength then
              [(tokenSpanSize (cf.relativeSpan selectedSpan) : ℚ)] else []) ∧
    (cf.appendBagFeatures (cf.relativeSpan selectedSpan)).length =
      cf.numFeaturesPerToken ∧
    ∀ j < cf.numFeaturesPerToken,
      (cf.appendBagFeatures (cf.relativeSpan selectedSpan)).getD j 0 =
        ((intRange (cf.relativeSpan selectedSpan).first
            (cf.relativeSpan selectedSpan).second).map
          fun i => (cf.row i).getD j 0).sum /
          (tokenSpanSize (cf.relativeSpan selectedSpan) : ℚ) := by
  have hrows' : ∀ i ∈ intRange (cf.relativeSpan selectedSpan).first
      (cf.relativeSpan selectedSpan).second,
      (cf.row i).length =
        (List.replicate cf.numFeaturesPerToken (0 : ℚ)).length := by
    simpa using hrows
  obtain ⟨hlen, hget⟩ := bagFold_characterization cf.row
    ((tokenSpanSize (cf.relativeSpan selectedSpan) : ℚ))
    (intRange (cf.relativeSpan selectedSpan).first
      (cf.relativeSpan selectedSpan).second)
    (List.replicate cf.numFeaturesPerToken 0) hrows'
  refine ⟨by simp [CachedFeatures.appendBoundsSensitiveFeaturesForSpan, hbag], ?_, ?_⟩
  · simpa [CachedFeatures.appendBagFeatures] using hlen
  · intro j hj
    have := hget j (by simpa using hj)
    simpa [CachedFeatures.appendBagFeatures] using this

/-- Witness for the C2 theorem: the worked example's matrix at selected
span `{5,8}` (relative span `[2,5)`, three inside rows). -/
theorem appendBagFeatures_is_mean_witness :
    (testMatrix.appendBagFeatures (testMatrix.relativeSpan ⟨5, 8⟩)).length =
      testMatrix.numFeaturesPerToken := by
  exact (appendBagFeatures_is_mean testMatrix ⟨5, 8⟩ rfl (by decide)
    (by decide)).2.1

/-! ### Bounds-sensitive chunk candidate enumeration
(`TextClassifier::ModelBoundsSensitiveScoreChunks`, `text-classifier.cc`) -/

/-- The maximum admissible chunk length used by
`ModelBoundsSensitiveScoreChunks`: `max_selection_span + 1` when
`selection_reduced_output_space` is set, `2 * max_selection_span + 1`
otherwise. -/
def maxChunkLength (reducedOutputSpace : Bool) (maxSelectionSpan : Int) : Int :=
  if reducedOutputSpace then maxSelectionSpan + 1 else 2 * maxSelectionSpan + 1

/-- The candidate spans enumerated by the double loop in
`ModelBoundsSensitiveScoreChunks`: `start` runs from `inference_span.first`
while `start < span_of_interest.second`; `end` runs from
`max(start, span_of_interest.first) + 1` while `end <= inference_span.second`
and `end - start <= max_chunk_length`.  (Whether a span is then scored in the
batch or directly given score zero — the `score_single_token_spans_as_zero`
split — does not change the set of spans enumerated.) -/
def boundsSensitiveCandidateSpans (inferenceSpan spanOfInterest : Span)
    (maxChunkLen : Int) : List Span :=
  (intRange inferenceSpan.first spanOfInterest.second).flatMap fun s =>
    (intRange (max s spanOfInterest.first + 1)
        (min inferenceSpan.second (s + maxChunkLen) + 1)).map fun e =>
      ⟨s, e⟩

/-- Membership characterization of the enumerated candidate spans. -/
theorem mem_boundsSensitiveCandidateSpans
    {inferenceSpan spanOfInterest : Span} {maxChunkLen : Int} {c : Span} :
    c ∈ boundsSensitiveCandidateSpans inferenceSpan spanOfInterest maxChunkLen
      ↔ inferenceSpan.first ≤ c.first ∧ c.first < spanOfInterest.second ∧
        max c.first spanOfInterest.first < c.second ∧
        c.second ≤ inferenceSpan.second ∧
        c.second - c.first ≤ maxChunkLen := by
  unfold boundsSensitiveCandidateSpans
  rw [List.mem_flatMap]
  constructor
  · rintro ⟨s, hs, hc⟩
    obtain ⟨e, he, rfl⟩ := List.mem_map.mp hc
    have h1 := mem_intRange.mp hs
    have h2 := mem_intRange.mp he
    simp only [le_max_iff, max_lt_iff] at *
    omega
  · rintro ⟨h1, h2, h3, h4, h5⟩
    refine ⟨c.first, mem_intRange.mpr ⟨h1, h2⟩,
      List.mem_map.mpr ⟨c.second, mem_intRange.mpr ⟨by omega, by omega⟩, rfl⟩⟩

/-- The candidate-span set as the claim words it: spans `[start, end)`
contained in the inference span, with `start` in the inference span,
`end > max(start, span_of_interest.first)`, and
`end - start <= max_chunk_length`.  This definition follows the claim's
words (not the source) and is compared against
`boundsSensitiveCandidateSpans`. -/
def claimCandidateSpanSet (inferenceSpan spanOfInterest : Span)
    (maxChunkLen : Int) (c : Span) : Prop :=
  inferenceSpan.first ≤ c.first ∧ c.second ≤ inferenceSpan.second ∧
  inferenceSpan.first ≤ c.first ∧ c.first < inferenceSpan.second ∧
  max c.first spanOfInterest.first < c.second ∧
  c.second - c.first ≤ maxChunkLen

instance (i s : Span) (m : Int) (c : Span) :
    Decidable (claimCandidateSpanSet i s m c) := by
  unfold claimCandidateSpanSet
  infer_instance

/-- C3, counterexample. With 6 tokens, span of interest `[2,4)`,
`max_selection_span = 2` (so the inference span is `[0,6)` and, without the
reduced output space, `max_chunk_length = 5`), the span `[4,5)` satisfies
every condition the claim lists — it is contained in the inference span, its
start lies in the inference span, `5 > max(4, 2)`, and its length is below
the maximum — yet the code never enumerates it, because the `start` loop
stops at `span_of_interest.second`. -/
theorem modelBoundsSensitiveScoreChunks_claim_counterexample :
    maxChunkLength false 2 = 5 ∧
    claimCandidateSpanSet ⟨0, 6⟩ ⟨2, 4⟩ 5 ⟨4, 5⟩ ∧
    ⟨4, 5⟩ ∉ boundsSensitiveCandidateSpans ⟨0, 6⟩ ⟨2, 4⟩ 5 := by
  refine ⟨rfl, by decide, by decide⟩

/-- C3, amended. Provided the span of interest ends inside the inference
span (which holds at the call site: the inference span is the span of
interest expanded by `max_selection_span` and clipped), the enumerated
candidate set is exactly the set of spans `[start, end)` contained in the
inference span such that `start` lies in the inference span **and before the
end of the span of interest**, `end > max(start, span_of_interest.first)`,
and `end - start <= max_chunk_length`, with `max_chunk_length =
max_selection_span + 1` under `selection_reduced_output_space` and
`2 * max_selection_span + 1` otherwise. -/
theorem modelBoundsSensitiveScoreChunks_candidates_characterization
    (inferenceSpan spanOfInterest : Span) (reduced : Bool)
    (maxSelectionSpan : Int) (c : Span)
    (h : spanOfInterest.second ≤ inferenceSpan.second) :
    (c ∈ boundsSensitiveCandidateSpans inferenceSpan spanOfInterest
        (maxChunkLength reduced maxSelectionSpan)
      ↔ inferenceSpan.first ≤ c.first ∧ c.second ≤ inferenceSpan.second ∧
        c.first < inferenceSpan.second ∧
        c.first < spanOfInterest.second ∧
        max c.first spanOfInterest.first < c.second ∧
        c.second - c.first ≤ maxChunkLength reduced maxSelectionSpan) ∧
    maxChunkLength true maxSelectionSpan = maxSelectionSpan + 1 ∧
    maxChunkLength false maxSelectionSpan = 2 * maxSelectionSpan + 1 := by
  refine ⟨?_, rfl, rfl⟩
  rw [mem_boundsSensitiveCandidateSpans]
  simp only [max_lt_iff] at *
  omega

/-- Witness for the amended C3 theorem, at the same concrete configuration
as the counterexample: `[3,5)` is enumerated and satisfies the
characterization. -/
theorem modelBoundsSensitiveScoreChunks_candidates_characterization_witness :
    (2 : Int) ≤ 6 ∧
    ((⟨3, 5⟩ : Span) ∈ boundsSensitiveCandidateSpans ⟨0, 6⟩ ⟨2, 4⟩
        (maxChunkLength false 2)
      ↔ (0 : Int) ≤ 3 ∧ (5 : Int) ≤ 6 ∧ (3 : Int) < 6 ∧ (3 : Int) < 4 ∧
        max (3 : Int) 2 < 5 ∧ (5 : Int) - 3 ≤ maxChunkLength false 2) := by
  exact ⟨by decide,
    (modelBoundsSensitiveScoreChunks_candidates_characterization
      ⟨0, 6⟩ ⟨2, 4⟩ false 2 ⟨3, 5⟩ (by decide)).1⟩

/-! ### Public-API span validity checks (`text-classifier.cc`) -/

/-- The guard of `TextClassifier::SuggestSelection` (text-classifier.cc,
lines 349–356): the call returns the original click indices when
`first < 0`, `second < 0`, `first >= size`, `second > size`, or
`first >= second`, where `size` is the context's codepoint count. -/
def suggestSelectionCheckInvalid (click : Span)
    (contextCodepointSize : Int) : Bool :=
  click.first < 0 || click.second < 0 ||
    click.first ≥ contextCodepointSize ||
    click.second > contextCodepointSize ||
    click.first ≥ click.second

/-- The guard of `TextClassifier::ClassifyText` (text-classifier.cc, lines
890–895): the call returns the empty list when `first >= second`; no range
check against the context is made there. -/
def classifyTextCheckInvalid (selection : Span) : Bool :=
  selection.first ≥ selection.second

/-- The boundary stage of `SuggestSelection`: if the guard fires, return
the click span; otherwise the call proceeds to the pipeline (whose eventual
result is abstracted as `pipelineResult`). -/
def suggestSelectionBoundary (click : Span) (contextCodepointSize : Int)
    (pipelineResult : Span) : Span :=
  if suggestSelectionCheckInvalid click contextCodepointSize then click
  else pipelineResult

/-- The boundary stage of `ClassifyText`: if the guard fires, return the
empty classification list; otherwise the call proceeds to the pipeline. -/
def classifyTextBoundary (selection : Span)
    (pipelineResult : List (String × ℚ)) : List (String × ℚ) :=
  if classifyTextCheckInvalid selection then [] else pipelineResult

/-- An invalid span as the claim words it (following the spec's
`InvalidSpan` definition, not the source): indices outside the text's
codepoint range, or `first >= second`. -/
def claimInvalidSpan (s : Span) (contextCodepointSize : Int) : Bool :=
  s.first < 0 || s.second < 0 || s.first > contextCodepointSize ||
    s.second > contextCodepointSize || s.first ≥ s.second

/-! ### Phone classification sanity check (`text-classifier.cc`) -/

/-- `isdigit` on a codepoint, as exercised by `CountDigits` (ASCII digits;
the C `isdigit` is only defined for this range in the default locale). -/
def isDigitCodepoint (c : Int) : Bool := 48 ≤ c && c ≤ 57

/-- `CountDigits` from `text-classifier.cc`: walk all codepoints of the
string with a running index and count the digits whose index lies inside
`selection_indices`. -/
def countDigits (codepoints : List Int) (selectionIndices : Span) : Int :=
  (codepoints.enum.filter fun p =>
    decide (selectionIndices.first ≤ (p.1 : Int)) &&
      decide ((p.1 : Int) < selectionIndices.second) &&
      isDigitCodepoint p.2).length

/-- A classification entry. Modelled from the spec: the
`ClassificationResult` struct is declared in headers that are not among the
provided sources; the spec describes a classification as an ordered list of
`(label, score, priority_score)` entries sorted by descending score. -/
structure ClassificationResult where
  collection : String
  score : ℚ
  priorityScore : ℚ
deriving DecidableEq, Repr

/-- The phone sanity check at the end of `ModelClassifyText`
(text-classifier.cc, lines 792–802): when the top-scoring classification is
the "phone" collection and the digit count inside the selection is below
`phone_min_num_digits` or above `phone_max_num_digits`, the whole result is
replaced by the single entry `("other", 1.0)` (its priority component
mirrors the two-argument `ClassificationResult` construction, which is not
among the provided sources; the claim constrains only the label and the
score). -/
def phoneSanityCheck (classificationResults : List ClassificationResult)
    (contextCodepoints : List Int) (selectionIndices : Span)
    (phoneMinNumDigits phoneMaxNumDigits : Int) : List ClassificationResult :=
  match classificationResults with
  | [] => []
  | top :: rest =>
      if top.collection = "phone" then
        let digitCount := countDigits contextCodepoints selectionIndices
        if digitCount < phoneMinNumDigits ∨ digitCount > phoneMaxNumDigits then
          [⟨"other", 1, 1⟩]
        else top :: rest
      else top :: rest

/-! ### Greedy span chunker (`TextClassifier::ModelChunk`) -/

/-- `TextClassifier::ScoredChunk`: a candidate token span with its model
score. -/
structure ScoredChunk where
  tokenSpan : Span
  score : ℚ
deriving DecidableEq, Repr

/-- The greedy sweep of `ModelChunk` (text-classifier.cc, lines 1146–1168):
traverse the scored chunks in order, accept a chunk iff none of its tokens
is already claimed (`token_used`), and claim its tokens on acceptance.  The
`token_used` bitmap over the inference span becomes a predicate on token
indices. -/
def pickChunksGreedy : List ScoredChunk → (Int → Bool) → List Span
  | [], _ => []
  | c :: rest, used =>
      if (intRange c.tokenSpan.first c.tokenSpan.second).all
          (fun i => !(used i)) then
        c.tokenSpan ::
          pickChunksGreedy rest
            (fun i => used i ||
              (decide (c.tokenSpan.first ≤ i) &&
                decide (i < c.tokenSpan.second)))
      else pickChunksGreedy rest used

/-- The `std::pair` lexicographic order used by the final
`std::sort(chunks->begin(), chunks->end())`. -/
def spanLexLe (a b : Span) : Bool :=
  a.first < b.first || (a.first = b.first && a.second ≤ b.second)

/-- `ModelChunk`'s selection stage: sort the scored chunks by descending
score (`std::sort(rbegin, rend, lhs.score < rhs.score)`; ties are in
unspecified order there, a stable sort is used here), sweep greedily, then
sort the accepted spans by position. -/
def modelChunkSelect (scoredChunks : List ScoredChunk) : List Span :=
  (pickChunksGreedy
      (scoredChunks.mergeSort (fun a b => decide (b.score ≤ a.score)))
      (fun _ => false)).mergeSort (fun a b => spanLexLe a b)

/-! ### Conflict resolver (`TextClassifier::ResolveConflicts`,
`ResolveConflict`, `FirstNonOverlappingSpanIndex`) -/

/-- `AnnotatedSpan` as `text-classifier.cc` uses it: a codepoint span and a
classification.  (The `types.h` of this snapshot still declares the older
`(label, score)` pair list; `text-classifier.cc` — the code under
verification — stores `ClassificationResult`s, which is what is embedded.) -/
structure AnnotatedSpan where
  span : Span
  classification : List ClassificationResult
deriving DecidableEq, Repr

instance : Inhabited AnnotatedSpan := ⟨⟨⟨0, 0⟩, []⟩⟩

/-- `TextClassifier::kOtherCollection`. -/
def kOtherCollection : String := "other"

/-- `ClassifiedAsOther`: non-empty classification whose top entry is the
"other" collection. -/
def classifiedAsOther (classification : List ClassificationResult) : Bool :=
  match classification with
  | [] => false
  | top :: _ => decide (top.collection = kOtherCollection)

/-- `GetPriorityScore` (text-classifier.cc, lines 458–465): `-1.0` for a
classification whose top entry is "other", the top entry's priority score
otherwise.  (On an empty classification the source would read
`classification[0]` out of bounds; callers only pass non-empty lists, and
the model returns 0 there.) -/
def getPriorityScore (classification : List ClassificationResult) : ℚ :=
  match classification with
  | [] => 0
  | top :: _ =>
      if top.collection = kOtherCollection then -1 else top.priorityScore

/-- The loop of `FirstNonOverlappingSpanIndex`: starting from index `fno`
with the grown `conflicting_span` and the candidates from index `fno`
onwards, keep absorbing candidates that overlap the grown span (extending
its right end to the maximum of the two ends). -/
def fnoWalk (conflictingSpan : Span) (fno : Nat) :
    List AnnotatedSpan → Nat
  | [] => fno
  | c :: rest =>
      if spansOverlap conflictingSpan c.span then
        fnoWalk ⟨conflictingSpan.first,
          max conflictingSpan.second c.span.second⟩ (fno + 1) rest
      else fno

/-- The `FirstNonOverlappingSpanIndex` loop never moves backwards. -/
theorem fnoWalk_ge (conflictingSpan : Span) (fno : Nat)
    (rest : List AnnotatedSpan) :
    fno ≤ fnoWalk conflictingSpan fno rest := by
  induction rest generalizing conflictingSpan fno with
  | nil => exact le_refl _
  | cons c cs ih =>
      unfold fnoWalk
      split
      · exact le_trans (by omega) (ih _ (fno + 1))
      · exact le_refl _

/-- The `FirstNonOverlappingSpanIndex` loop advances at most past the
remaining candidates. -/
theorem fnoWalk_le (conflictingSpan : Span) (fno : Nat)
    (rest : List AnnotatedSpan) :
    fnoWalk conflictingSpan fno rest ≤ fno + rest.length := by
  induction rest generalizing conflictingSpan fno with
  | nil => simp [fnoWalk]
  | cons c cs ih =>
      unfold fnoWalk
      split
      · exact le_trans (ih _ (fno + 1)) (by simp; omega)
      · simp

/-- `FirstNonOverlappingSpanIndex` (text-classifier.cc, lines 406–420):
walk from `start_index + 1` while the spans keep overlapping the grown
conflicting span. -/
def firstNonOverlappingSpanIndex (cands : List AnnotatedSpan)
    (startIndex : Nat) : Nat :=
  fnoWalk (cands.getD startIndex default).span (startIndex + 1)
    (cands.drop (startIndex + 1))

/-- The naturals `a, ..., b-1`, embedding `for (int i = a; i < b; ++i)`
over candidate indices. -/
def natRange (a b : Nat) : List Nat :=
  (List.range (b - a)).map (a + ·)

theorem mem_natRange {a b i : Nat} : i ∈ natRange a b ↔ a ≤ i ∧ i < b := by
  unfold natRange
  constructor
  · intro h
    obtain ⟨k, hk, rfl⟩ := List.mem_map.mp h
    have := List.mem_range.mp hk
    omega
  · rintro ⟨h1, h2⟩
    exact List.mem_map.mpr ⟨i - a, List.mem_range.mpr (by omega), by omega⟩

/-- The score-collection loop of `ResolveConflict` (text-classifier.cc,
lines 472–495): for each conflicting index, use the candidate's own
priority score when it already carries a classification; otherwise classify
its span now — failing the whole resolution when that fails — and record
the priority score when the classification is non-empty. -/
def collectScores (cands : List AnnotatedSpan)
    (classify : Span → Option (List ClassificationResult)) :
    List Nat → Option (List (Nat × ℚ))
  | [] => some []
  | i :: rest =>
      let c := cands.getD i default
      if c.classification.isEmpty then
        match classify c.span with
        | none => none
        | some classification =>
            if classification.isEmpty then collectScores cands classify rest
            else
              (collectScores cands classify rest).map
                ((i, getPriorityScore classification) :: ·)
      else
        (collectScores cands classify rest).map
          ((i, getPriorityScore c.classification) :: ·)

/-- Score lookup in the sort comparator: a missing key behaves as `0.0`
(`std::unordered_map::operator[]` default-inserts there). -/
def scoreOf (scores : List (Nat × ℚ)) (i : Nat) : ℚ :=
  match scores.lookup i with
  | some s => s
  | none => 0

/-- Insertion into a list of indices kept in descending score order
(`std::sort` with comparator `scores[i] > scores[j]`; ties are in
unspecified order there, a stable sort is used here). -/
def insertDescByScore (scores : List (Nat × ℚ)) (i : Nat) :
    List Nat → List Nat
  | [] => [i]
  | j :: rest =>
      if scoreOf scores i > scoreOf scores j then i :: j :: rest
      else j :: insertDescByScore scores i rest

/-- Sort candidate indices by descending priority score. -/
def sortDescByScore (scores : List (Nat × ℚ)) (l : List Nat) : List Nat :=
  l.foldr (insertDescByScore scores) []

/-- Modelled from the spec: `DoesCandidateConflict` is used by
`text-classifier.cc` but its definition is not among the provided sources.
The spec: skip "any member whose span overlaps a span already accepted
(tested against the accepted set, not the original cluster)". -/
def doesCandidateConflict (cands : List AnnotatedSpan) (i : Nat)
    (chosen : List Nat) : Bool :=
  chosen.any fun j =>
    spansOverlap (cands.getD i default).span (cands.getD j default).span

/-- Insertion into `chosen_indices_set`, a `std::set` ordered by the
candidate's `span.first`; inserting an index whose span starts where an
already-chosen one does is a no-op (equivalent keys). -/
def chosenInsert (cands : List AnnotatedSpan) (i : Nat) :
    List Nat → List Nat
  | [] => [i]
  | j :: rest =>
      if (cands.getD i default).span.first <
          (cands.getD j default).span.first then
        i :: j :: rest
      else if (cands.getD j default).span.first <
          (cands.getD i default).span.first then
        j :: chosenInsert cands i rest
      else j :: rest

/-- One step of the greedy placement loop of `ResolveConflict`: skip the
candidate when it conflicts with the accepted set, insert it otherwise. -/
def acceptCandidate (cands : List AnnotatedSpan) (chosen : List Nat)
    (i : Nat) : List Nat :=
  if doesCandidateConflict cands i chosen then chosen
  else chosenInsert cands i chosen

/-- `TextClassifier::ResolveConflict` (text-classifier.cc, lines 468–521):
collect per-index priority scores over the cluster `[startIndex, endIndex)`
(classifying deferred candidates now, and failing when that classification
fails), sort the cluster by descending priority, then greedily accept
members that do not conflict with the already accepted set, which is kept
ordered by span start. -/
def resolveConflict (cands : List AnnotatedSpan) (startIndex endIndex : Nat)
    (classify : Span → Option (List ClassificationResult)) :
    Option (List Nat) :=
  match collectScores cands classify (natRange startIndex endIndex) with
  | none => none
  | some scores =>
      some ((sortDescByScore scores (natRange startIndex endIndex)).foldl
        (acceptCandidate cands) [])

/-- The scan of `TextClassifier::ResolveConflicts` (text-classifier.cc,
lines 423–449) from position `i`: find the conflicting group starting at
`i`; a singleton group is accepted outright, a larger group goes through
`ResolveConflict` (whose failure fails the whole resolution); then continue
from the first non-overlapping index. -/
def resolveConflictsAux (cands : List AnnotatedSpan)
    (classify : Span → Option (List ClassificationResult)) (i : Nat) :
    Option (List Nat) :=
  if i < cands.length then
    let fno := firstNonOverlappingSpanIndex cands i
    if fno ≠ i + 1 then
      match resolveConflict cands i fno classify with
      | none => none
      | some chosen => (resolveConflictsAux cands classify fno).map (chosen ++ ·)
    else (resolveConflictsAux cands classify (i + 1)).map (i :: ·)
  else some []
termination_by cands.length - i
decreasing_by
  · have h1 : i + 1 ≤ firstNonOverlappingSpanIndex cands i :=
      fnoWalk_ge (cands.getD i default).span (i + 1) (cands.drop (i + 1))
    simp only [firstNonOverlappingSpanIndex] at *
    omega
  · omega

/-- `TextClassifier::ResolveConflicts`: scan the position-sorted candidates
from the left, returning the chosen indices, or `none` when a deferred
classification inside some conflicting group fails. -/
def resolveConflicts (cands : List AnnotatedSpan)
    (classify : Span → Option (List ClassificationResult)) :
    Option (List Nat) :=
  resolveConflictsAux cands classify 0

/-- The tail of `TextClassifier::SuggestSelection` (text-classifier.cc,
lines 385–398): resolve conflicts over the position-sorted candidates —
returning the original click span when that fails — then return the first
chosen span overlapping the click, or the click span when none does. -/
def suggestSelectionResolve (cands : List AnnotatedSpan) (clickIndices : Span)
    (classify : Span → Option (List ClassificationResult)) : Span :=
  match resolveConflicts cands classify with
  | none => clickIndices
  | some chosen =>
      match chosen.find? (fun i =>
          spansOverlap (cands.getD i default).span clickIndices) with
      | some i => (cands.getD i default).span
      | none => clickIndices

/-- The tail of `TextClassifier::Annotate` (text-classifier.cc, lines
1058–1074): resolve conflicts — returning the empty list when that fails —
then keep the chosen candidates that carry a non-empty classification not
classified as "other". -/
def annotateResolve (cands : List AnnotatedSpan)
    (classify : Span → Option (List ClassificationResult)) :
    List AnnotatedSpan :=
  match resolveConflicts cands classify with
  | none => []
  | some chosen =>
      ((chosen.map fun i => cands.getD i default).filter fun c =>
        !c.classification.isEmpty && !classifiedAsOther c.classification)

/-- C6. For candidates sorted by span start, a chain `A` overlaps `B`,
`B` overlaps `C`, `A` does not overlap `C` is grouped into one conflict
cluster (`FirstNonOverlappingSpanIndex` runs to the end of the list), and
there are priority scores — exhibited concretely in the second conjunct,
with spans `[0,3)`, `[2,6)`, `[5,8)` and priorities `3`, `1`, `2` — under
which both `A` and `C` are accepted and `B` is rejected. -/
theorem conflictCluster_chain_and_selection :
    (∀ A B C : AnnotatedSpan,
      A.span.first ≤ B.span.first → B.span.first ≤ C.span.first →
      spansOverlap A.span B.span = true →
      spansOverlap B.span C.span = true →
      spansOverlap A.span C.span = false →
      firstNonOverlappingSpanIndex [A, B, C] 0 = 3) ∧
    (firstNonOverlappingSpanIndex
        [⟨⟨0, 3⟩, [⟨"address", 1, 3⟩]⟩, ⟨⟨2, 6⟩, [⟨"address", 1, 1⟩]⟩,
         ⟨⟨5, 8⟩, [⟨"address", 1, 2⟩]⟩] 0 = 3 ∧
      resolveConflict
        [⟨⟨0, 3⟩, [⟨"address", 1, 3⟩]⟩, ⟨⟨2, 6⟩, [⟨"address", 1, 1⟩]⟩,
         ⟨⟨5, 8⟩, [⟨"address", 1, 2⟩]⟩] 0 3 (fun _ => none) =
        some [0, 2]) := by
  constructor
  · intro A B C hAB hBC hoAB hoBC hoAC
    obtain ⟨h3, h4⟩ : A.span.first < B.span.second ∧
        B.span.first < A.span.second := by
      simpa [spansOverlap, Bool.and_eq_true, decide_eq_true_eq] using hoAB
    obtain ⟨h5, h6⟩ : B.span.first < C.span.second ∧
        C.span.first < B.span.second := by
      simpa [spansOverlap, Bool.and_eq_true, decide_eq_true_eq] using hoBC
    have hoGrown : spansOverlap
        ⟨A.span.first, max A.span.second B.span.second⟩ C.span = true := by
      simp only [spansOverlap, Bool.and_eq_true, decide_eq_true_eq]
      omega
    have hfirst : firstNonOverlappingSpanIndex [A, B, C] 0 =
        fnoWalk A.span 1 [B, C] := rfl
    rw [hfirst]
    unfold fnoWalk
    rw [if_pos hoAB]
    unfold fnoWalk
    rw [if_pos hoGrown]
    rfl
  · constructor
    · decide
    · decide

/-- Witness for the C6 theorem: the chain spans `[0,3)`, `[2,6)`, `[5,8)`
form one cluster. -/
theorem conflictCluster_chain_and_selection_witness :
    firstNonOverlappingSpanIndex
      [⟨⟨0, 3⟩, []⟩, ⟨⟨2, 6⟩, []⟩, ⟨⟨5, 8⟩, []⟩] 0 = 3 :=
  conflictCluster_chain_and_selection.1 ⟨⟨0, 3⟩, []⟩ ⟨⟨2, 6⟩, []⟩
    ⟨⟨5, 8⟩, []⟩ (by decide) (by decide) (by decide) (by decide) (by decide)

/-- C5, counterexample. An "other"-classified candidate (span `[0,5)`, raw
score 9) overlapping a real-label candidate whose priority score is `-2`
(span `[3,8)`, collection "address", raw score 8): the "other" candidate's
sentinel priority `-1.0` outranks `-2`, so the cluster resolves to the
"other" candidate and the real-label candidate is rejected — the claim's
"for every conflict cluster" fails. -/
theorem resolveConflict_other_wins_counterexample :
    classifiedAsOther [(⟨"other", 9, 9⟩ : ClassificationResult)] = true ∧
    classifiedAsOther [(⟨"address", 8, -2⟩ : ClassificationResult)] = false ∧
    spansOverlap ⟨0, 5⟩ ⟨3, 8⟩ = true ∧
    resolveConflict
      [⟨⟨0, 5⟩, [⟨"other", 9, 9⟩]⟩, ⟨⟨3, 8⟩, [⟨"address", 8, -2⟩]⟩]
      0 2 (fun _ => none) = some [0] := by
  refine ⟨by decide, by decide, by decide, by decide⟩

/-- C5, amended. A candidate whose top classification is "other" is
assigned priority `-1.0` regardless of its score, so in a two-candidate
conflict cluster of one "other"-classified candidate and one overlapping
real-label candidate the real-label candidate is accepted and the "other"
candidate rejected — provided the real-label candidate's priority score
exceeds `-1.0` (priority scores come from model data and may be lower, in
which case the "other" candidate can win). -/
theorem resolveConflict_other_vs_real
    (s0 s1 : Span) (sc0 sc1 p0 p1 : ℚ)
    (rest0 rest1 : List ClassificationResult) (l1 : String)
    (classify : Span → Option (List ClassificationResult))
    (hoverlap : spansOverlap s0 s1 = true)
    (hl1 : l1 ≠ "other") (hp1 : p1 > -1) :
    getPriorityScore (⟨"other", sc0, p0⟩ :: rest0) = -1 ∧
    resolveConflict
      [⟨s0, ⟨"other", sc0, p0⟩ :: rest0⟩, ⟨s1, ⟨l1, sc1, p1⟩ :: rest1⟩]
      0 2 classify = some [1] ∧
    resolveConflict
      [⟨s0, ⟨l1, sc1, p1⟩ :: rest0⟩, ⟨s1, ⟨"other", sc0, p0⟩ :: rest1⟩]
      0 2 classify = some [0] := by
  have hoverlap' : spansOverlap s1 s0 = true := by
    simp only [spansOverlap, Bool.and_eq_true, decide_eq_true_eq] at *
    omega
  have hrange : natRange 0 2 = [0, 1] := rfl
  have hnotgt : ¬((-1 : ℚ) > p1) := by linarith
  have hgt : p1 > -1 := hp1
  refine ⟨by simp [getPriorityScore, kOtherCollection], ?_, ?_⟩
  · simp only [resolveConflict, hrange, collectScores, List.getD, List.get?,
      List.isEmpty, getPriorityScore, kOtherCollection, hl1, if_true, if_false,
      Option.map_some, Option.getD_some]
    simp [sortDescByScore, insertDescByScore, scoreOf, List.lookup,
      acceptCandidate, doesCandidateConflict, chosenInsert, hoverlap, hnotgt]
  · simp only [resolveConflict, hrange, collectScores, List.getD, List.get?,
      List.isEmpty, getPriorityScore, kOtherCollection, hl1, if_true, if_false,
      Option.map_some, Option.getD_some]
    simp [sortDescByScore, insertDescByScore, scoreOf, List.lookup,
      acceptCandidate, doesCandidateConflict, chosenInsert, hoverlap', hgt]

/-- Witness for the amended C5 theorem: spans `[0,5)` and `[3,8)`, real
label "address" with priority `2`. -/
theorem resolveConflict_other_vs_real_witness :
    resolveConflict
      [⟨⟨0, 5⟩, [⟨"other", 9, 9⟩]⟩, ⟨⟨3, 8⟩, [⟨"address", 8, 2⟩]⟩]
      0 2 (fun _ => none) = some [1] :=
  (resolveConflict_other_vs_real ⟨0, 5⟩ ⟨3, 8⟩ 9 8 9 2 [] [] "address"
    (fun _ => none) (by decide) (by decide) (by norm_num)).2.1

/-- The positions the `ResolveConflicts` scan visits: from `i`, the scan
moves to the first non-overlapping index of the group starting at `i`. -/
inductive ScanReaches (cands : List AnnotatedSpan) : Nat → Nat → Prop
  | refl (i : Nat) : ScanReaches cands i i
  | step {i c : Nat} : i < cands.length →
      ScanReaches cands (firstNonOverlappingSpanIndex cands i) c →
      ScanReaches cands i c

theorem collectScores_none_of_pending_failure
    (cands : List AnnotatedSpan)
    (classify : Span → Option (List ClassificationResult)) :
    ∀ l : List Nat,
      (∃ j ∈ l, (cands.getD j default).classification = [] ∧
        classify (cands.getD j default).span = none) →
      collectScores cands classify l = none := by
  intro l
  induction l with
  | nil => rintro ⟨j, hj, _⟩; simp at hj
  | cons i rest ih =>
      rintro ⟨j, hj, hpend, hfail⟩
      rcases List.mem_cons.mp hj with rfl | hjrest
      · have hpend' : (cands[j]?.getD default).classification = [] := by
          simpa [List.getD, List.get?_eq_getElem?] using hpend
        simp only [collectScores]
        rw [if_pos (by simp [hpend']), hfail]
      · have hrec := ih ⟨j, hjrest, hpend, hfail⟩
        simp only [collectScores]
        split
        · split
          · rfl
          · split
            · exact hrec
            · simp [hrec]
        · simp [hrec]

/-- C8. If the classification invoked inside conflict resolution for a
pending (unclassified) candidate of a cluster fails, `ResolveConflict`
fails; a failing `ResolveConflict` at any conflicting group the scan
reaches fails the whole `ResolveConflicts`; and a failed resolution makes
`SuggestSelection` return the original click indices and `Annotate` return
the empty list — no partially resolved candidate set is returned. -/
theorem classificationFailure_propagates
    (cands : List AnnotatedSpan)
    (classify : Span → Option (List ClassificationResult))
    (clickIndices : Span) :
    (∀ startIndex endIndex j, startIndex ≤ j → j < endIndex →
      (cands.getD j default).classification = [] →
      classify (cands.getD j default).span = none →
      resolveConflict cands startIndex endIndex classify = none) ∧
    (∀ c, ScanReaches cands 0 c → c < cands.length →
      firstNonOverlappingSpanIndex cands c ≠ c + 1 →
      resolveConflict cands c (firstNonOverlappingSpanIndex cands c)
        classify = none →
      resolveConflicts cands classify = none) ∧
    (resolveConflicts cands classify = none →
      suggestSelectionResolve cands clickIndices classify = clickIndices ∧
      annotateResolve cands classify = []) := by
  refine ⟨?_, ?_, ?_⟩
  · intro startIndex endIndex j h1 h2 hpend hfail
    unfold resolveConflict
    rw [collectScores_none_of_pending_failure cands classify _
      ⟨j, mem_natRange.mpr ⟨h1, h2⟩, hpend, hfail⟩]
  · have key : ∀ i c, ScanReaches cands i c → c < cands.length →
        firstNonOverlappingSpanIndex cands c ≠ c + 1 →
        resolveConflict cands c (firstNonOverlappingSpanIndex cands c)
          classify = none →
        resolveConflictsAux cands classify i = none := by
      intro i c hreach
      induction hreach with
      | refl i =>
          intro hc hconf hfailrc
          rw [resolveConflictsAux]
          simp only [if_pos hc]
          rw [if_pos hconf, hfailrc]
      | step hi _ ih =>
          intro hc hconf hfailrc
          have hAuxF := ih hc hconf hfailrc
          rename_i i' c' _
          rw [resolveConflictsAux]
          simp only [if_pos hi]
          by_cases hsplit : firstNonOverlappingSpanIndex cands i' ≠ i' + 1
          · rw [if_pos hsplit]
            cases hrc : resolveConflict cands i'
                (firstNonOverlappingSpanIndex cands i') classify with
            | none => rfl
            | some chosen => rw [hAuxF]; rfl
          · rw [if_neg hsplit]
            have heq : firstNonOverlappingSpanIndex cands i' = i' + 1 := by
              omega
            rw [heq] at hAuxF
            rw [hAuxF]
            rfl
    intro c hreach hc hconf hfailrc
    exact key 0 c hreach hc hconf hfailrc
  · intro hnone
    constructor
    · unfold suggestSelectionResolve
      rw [hnone]
    · unfold annotateResolve
      rw [hnone]

/-- Witness for the C8 theorem: two overlapping candidates, the first
pending (no classification yet), with a failing classifier — resolution
fails and both public APIs return their defaults. -/
theorem classificationFailure_propagates_witness :
    resolveConflicts
      [⟨⟨0, 5⟩, []⟩, ⟨⟨3, 8⟩, [⟨"address", 1, 1⟩]⟩] (fun _ => none) = none ∧
    suggestSelectionResolve
      [⟨⟨0, 5⟩, []⟩, ⟨⟨3, 8⟩, [⟨"address", 1, 1⟩]⟩] ⟨1, 2⟩
      (fun _ => none) = ⟨1, 2⟩ ∧
    annotateResolve
      [⟨⟨0, 5⟩, []⟩, ⟨⟨3, 8⟩, [⟨"address", 1, 1⟩]⟩] (fun _ => none) = [] := by
  have h := classificationFailure_propagates
    [⟨⟨0, 5⟩, []⟩, ⟨⟨3, 8⟩, [⟨"address", 1, 1⟩]⟩] (fun _ => none) ⟨1, 2⟩
  have hfno : firstNonOverlappingSpanIndex
      [⟨⟨0, 5⟩, []⟩, ⟨⟨3, 8⟩, [⟨"address", 1, 1⟩]⟩] 0 = 2 := by decide
  have hrc : resolveConflict
      [⟨⟨0, 5⟩, []⟩, ⟨⟨3, 8⟩, [⟨"address", 1, 1⟩]⟩] 0 2 (fun _ => none) =
      none := h.1 0 2 0 (le_refl 0) (by norm_num) rfl rfl
  have hnone : resolveConflicts
      [⟨⟨0, 5⟩, []⟩, ⟨⟨3, 8⟩, [⟨"address", 1, 1⟩]⟩] (fun _ => none) =
      none := by
    refine h.2.1 0 (ScanReaches.refl 0) (by norm_num) ?_ ?_
    · rw [hfno]
      norm_num
    · rw [hfno]
      exact hrc
  exact ⟨hnone, (h.2.2 hnone).1, (h.2.2 hnone).2⟩

/-- C7, counterexample. The span `(2, 7)` on a text of 4 codepoints is
invalid in the claim's sense (its indices lie outside the codepoint range),
and `SuggestSelection`'s guard does flag it, but `ClassifyText`'s boundary
check does not: the call proceeds to run the pipeline instead of returning
the empty-list default at the boundary. -/
theorem classifyText_invalidSpan_counterexample :
    claimInvalidSpan ⟨2, 7⟩ 4 = true ∧
    suggestSelectionCheckInvalid ⟨2, 7⟩ 4 = true ∧
    classifyTextCheckInvalid ⟨2, 7⟩ = false ∧
    classifyTextBoundary ⟨2, 7⟩ [("phone", 1)] = [("phone", 1)] := by
  refine ⟨by decide, by decide, by decide, by norm_num [classifyTextBoundary,
    classifyTextCheckInvalid]⟩

/-- C7, amended. `SuggestSelection` detects every invalid span in the
claim's sense at its boundary and returns the original click span;
`ClassifyText` detects only `first >= second` at its boundary (returning
the empty list), and a span whose indices are out of range but ordered
passes the boundary and runs the pipeline. -/
theorem publicApi_invalidSpan_handling :
    (∀ (click : Span) (size : Int) (pipe : Span),
        claimInvalidSpan click size = true →
        suggestSelectionBoundary click size pipe = click) ∧
    (∀ (sel : Span) (pipe : List (String × ℚ)),
        sel.first ≥ sel.second → classifyTextBoundary sel pipe = []) ∧
    (∀ (sel : Span) (pipe : List (String × ℚ)),
        sel.first < sel.second → classifyTextBoundary sel pipe = pipe) := by
  refine ⟨?_, ?_, ?_⟩
  · intro click size pipe h
    simp only [claimInvalidSpan, Bool.or_eq_true, decide_eq_true_eq] at h
    have hguard : suggestSelectionCheckInvalid click size = true := by
      simp only [suggestSelectionCheckInvalid, Bool.or_eq_true,
        decide_eq_true_eq]
      omega
    simp [suggestSelectionBoundary, hguard]
  · intro sel pipe h
    simp [classifyTextBoundary, classifyTextCheckInvalid, h]
  · intro sel pipe h
    simp [classifyTextBoundary, classifyTextCheckInvalid, h]

/-- Witness for the amended C7 theorem: a click span below zero is caught
by `SuggestSelection`; an empty span is caught by `ClassifyText`; an
ordered span runs `ClassifyText`'s pipeline. -/
theorem publicApi_invalidSpan_handling_witness :
    suggestSelectionBoundary ⟨-1, 2⟩ 4 ⟨0, 4⟩ = ⟨-1, 2⟩ ∧
    classifyTextBoundary ⟨3, 3⟩ [("date", 1)] = [] ∧
    classifyTextBoundary ⟨0, 2⟩ [("date", 1)] = [("date", 1)] := by
  refine ⟨publicApi_invalidSpan_handling.1 ⟨-1, 2⟩ 4 ⟨0, 4⟩ (by decide),
    publicApi_invalidSpan_handling.2.1 ⟨3, 3⟩ _ (by decide),
    publicApi_invalidSpan_handling.2.2 ⟨0, 2⟩ _ (by decide)⟩

/-- C10. The phone sanity check of `ModelClassifyText`: when the top-scoring
classification is "phone" and the digit count inside the selection is below
`phone_min_num_digits` or above `phone_max_num_digits`, the entire result is
replaced by the single entry `("other", 1.0)`; in every other case (digit
count in range, top not "phone", or empty results) the results pass through
unchanged. -/
theorem modelClassifyText_phone_check
    (results : List ClassificationResult) (ctx : List Int) (sel : Span)
    (minD maxD : Int) :
    (∀ top rest, results = top :: rest → top.collection = "phone" →
        (countDigits ctx sel < minD ∨ countDigits ctx sel > maxD) →
        (phoneSanityCheck results ctx sel minD maxD).map
          (fun r => (r.collection, r.score)) = [("other", 1)]) ∧
    (∀ top rest, results = top :: rest → top.collection = "phone" →
        minD ≤ countDigits ctx sel → countDigits ctx sel ≤ maxD →
        phoneSanityCheck results ctx sel minD maxD = results) ∧
    (∀ top rest, results = top :: rest → top.collection ≠ "phone" →
        phoneSanityCheck results ctx sel minD maxD = results) ∧
    (results = [] → phoneSanityCheck results ctx sel minD maxD = []) := by
  refine ⟨?_, ?_, ?_, ?_⟩
  · rintro top rest rfl htop hout
    simp [phoneSanityCheck, htop, hout]
  · rintro top rest rfl htop h1 h2
    have hout : ¬(countDigits ctx sel < minD ∨ countDigits ctx sel > maxD) := by
      omega
    simp [phoneSanityCheck, htop, hout]
  · rintro top rest rfl htop
    simp [phoneSanityCheck, htop]
  · rintro rfl
    simp [phoneSanityCheck]

/-- Witness for the C10 theorem: on the codepoints of `"ab1"` with the full
span selected, a top-scoring "phone" classification with a single digit and
`phone_min_num_digits = 2` is replaced by `("other", 1.0)`; with
`phone_min_num_digits = 1` it is left unchanged. -/
theorem modelClassifyText_phone_check_witness :
    (phoneSanityCheck [⟨"phone", 9/10, 9/10⟩] [97, 98, 49] ⟨0, 3⟩ 2 7).map
        (fun r => (r.collection, r.score)) = [("other", 1)] ∧
    phoneSanityCheck [⟨"phone", 9/10, 9/10⟩] [97, 98, 49] ⟨0, 3⟩ 1 7 =
      [⟨"phone", 9/10, 9/10⟩] := by
  refine ⟨(modelClassifyText_phone_check [⟨"phone", 9/10, 9/10⟩]
      [97, 98, 49] ⟨0, 3⟩ 2 7).1 _ _ rfl rfl (by decide),
    (modelClassifyText_phone_check [⟨"phone", 9/10, 9/10⟩]
      [97, 98, 49] ⟨0, 3⟩ 1 7).2.1 _ _ rfl rfl (by decide) (by decide)⟩

/-! ### Non-overlap of the chunker and the conflict resolver (C4) -/

theorem spansOverlap_symm_false {a b : Span} (h : spansOverlap a b = false) :
    spansOverlap b a = false := by
  simp only [spansOverlap, Bool.and_eq_false_iff, decide_eq_false_iff_not,
    not_lt] at *
  omega

/-- Two non-empty overlapping token spans share a token. -/
theorem shared_token_of_overlap {a b : Span} (ha : a.first < a.second)
    (hb : b.first < b.second) (h : spansOverlap a b = true) :
    ∃ i : Int, a.first ≤ i ∧ i < a.second ∧ b.first ≤ i ∧ i < b.second := by
  simp only [spansOverlap, Bool.and_eq_true, decide_eq_true_eq] at h
  exact ⟨max a.first b.first, by omega, by omega, by omega, by omega⟩

/-- Soundness of the greedy sweep: the accepted spans are input spans, any
two of them do not overlap, and all their tokens were unclaimed in the
starting state. -/
theorem pickChunksGreedy_sound (chunks : List ScoredChunk) :
    ∀ used : Int → Bool,
      (∀ c ∈ chunks, c.tokenSpan.first < c.tokenSpan.second) →
      (pickChunksGreedy chunks used).Pairwise
        (fun a b => spansOverlap a b = false) ∧
      (∀ s ∈ pickChunksGreedy chunks used, ∀ i : Int,
        s.first ≤ i → i < s.second → used i = false) ∧
      (∀ s ∈ pickChunksGreedy chunks used, ∃ c ∈ chunks, c.tokenSpan = s) := by
  induction chunks with
  | nil => intro used _; refine ⟨List.Pairwise.nil, by simp [pickChunksGreedy],
      by simp [pickChunksGreedy]⟩
  | cons c rest ih =>
      intro used hne
      have hnec : c.tokenSpan.first < c.tokenSpan.second := hne c (by simp)
      have hnerest : ∀ x ∈ rest, x.tokenSpan.first < x.tokenSpan.second :=
        fun x hx => hne x (by simp [hx])
      by_cases hfeas : (intRange c.tokenSpan.first c.tokenSpan.second).all
          (fun i => !(used i)) = true
      · have hunused : ∀ i : Int, c.tokenSpan.first ≤ i →
            i < c.tokenSpan.second → used i = false := by
          intro i h1 h2
          have := List.all_eq_true.mp hfeas i (mem_intRange.mpr ⟨h1, h2⟩)
          simpa using this
        obtain ⟨ihPair, ihUnused, ihFrom⟩ := ih
          (fun i => used i ||
            (decide (c.tokenSpan.first ≤ i) &&
              decide (i < c.tokenSpan.second))) hnerest
        have hout : pickChunksGreedy (c :: rest) used =
            c.tokenSpan :: pickChunksGreedy rest
              (fun i => used i ||
                (decide (c.tokenSpan.first ≤ i) &&
                  decide (i < c.tokenSpan.second))) := by
          simp only [pickChunksGreedy, if_pos hfeas]
        rw [hout]
        refine ⟨List.Pairwise.cons ?_ ihPair, ?_, ?_⟩
        · intro t ht
          by_contra hov
          have hov' : spansOverlap c.tokenSpan t = true := by
            cases h' : spansOverlap c.tokenSpan t with
            | false => exact absurd h' hov
            | true => rfl
          obtain ⟨tc, htc, rfl⟩ := ihFrom t ht
          obtain ⟨i, h1, h2, h3, h4⟩ := shared_token_of_overlap hnec
            (hnerest tc htc) hov'
          have := ihUnused _ ht i h3 h4
          simp only [Bool.or_eq_false_iff, Bool.and_eq_false_iff,
            decide_eq_false_iff_not] at this
          rcases this.2 with h | h
          · exact h h1
          · exact h h2
        · intro s hs i h1 h2
          rcases List.mem_cons.mp hs with rfl | hs'
          · exact hunused i h1 h2
          · have := ihUnused s hs' i h1 h2
            simp only [Bool.or_eq_false_iff] at this
            exact this.1
        · intro s hs
          rcases List.mem_cons.mp hs with rfl | hs'
          · exact ⟨c, by simp⟩
          · obtain ⟨x, hx, hxs⟩ := ihFrom s hs'
            exact ⟨x, by simp [hx], hxs⟩
      · have hout : pickChunksGreedy (c :: rest) used =
            pickChunksGreedy rest used := by
          simp only [pickChunksGreedy, if_neg hfeas]
        rw [hout]
        obtain ⟨ihPair, ihUnused, ihFrom⟩ := ih used hnerest
        exact ⟨ihPair, ihUnused, fun s hs =>
          (ihFrom s hs).elim fun x ⟨hx, hxs⟩ => ⟨x, by simp [hx], hxs⟩⟩

theorem getD_default_eq_get (l : List AnnotatedSpan) (i : Nat)
    (h : i < l.length) : l.getD i default = l.get ⟨i, h⟩ := by
  simp [List.getD_eq_getElem?_getD, List.getElem?_eq_getElem h]

theorem getD_default_mem (l : List AnnotatedSpan) (i : Nat)
    (h : i < l.length) : l.getD i default ∈ l := by
  rw [getD_default_eq_get l i h]
  exact List.get_mem l i h

/-- Sortedness by span start, in index form. -/
theorem sorted_getD (cands : List AnnotatedSpan)
    (hsorted : cands.Pairwise (fun a b => a.span.first ≤ b.span.first)) :
    ∀ x y : Nat, x ≤ y → y < cands.length →
      (cands.getD x default).span.first ≤
        (cands.getD y default).span.first := by
  intro x y hxy hy
  rcases Nat.lt_or_ge x y with h | h
  · rw [getD_default_eq_get cands x (by omega), getD_default_eq_get cands y hy]
    exact List.pairwise_iff_get.mp hsorted ⟨x, by omega⟩ ⟨y, hy⟩ h
  · have : x = y := by omega
    subst this
    exact le_refl _

/-- Non-emptiness of candidate spans, in index form. -/
theorem nonempty_getD (cands : List AnnotatedSpan)
    (hne : ∀ c ∈ cands, c.span.first < c.span.second) :
    ∀ x : Nat, x < cands.length →
      (cands.getD x default).span.first < (cands.getD x default).span.second :=
  fun x hx => hne _ (getD_default_mem cands x hx)

/-- Exit property of the `FirstNonOverlappingSpanIndex` walk: when it stops
inside the candidate list, the conflicting span built so far, and every
candidate the walk absorbed, end at or before the stopping candidate's
start.  Requires that the conflicting span starts before the end of every
remaining candidate. -/
theorem fnoWalk_separation (cands : List AnnotatedSpan) :
    ∀ (n f : Nat) (conf : Span), cands.length - f = n →
      (∀ b, f ≤ b → b < cands.length →
        conf.first < (cands.getD b default).span.second) →
      fnoWalk conf f (cands.drop f) < cands.length →
      conf.second ≤
        (cands.getD (fnoWalk conf f (cands.drop f)) default).span.first ∧
      ∀ a, f ≤ a → a < fnoWalk conf f (cands.drop f) →
        (cands.getD a default).span.second ≤
          (cands.getD (fnoWalk conf f (cands.drop f)) default).span.first := by
  intro n
  induction n using Nat.strong_induction_on with
  | _ n ihn =>
      intro f conf hn hcf hr
      by_cases hf : f < cands.length
      · have hdrop : cands.drop f = cands.getD f default :: cands.drop (f + 1) := by
          rw [getD_default_eq_get cands f hf]
          simpa using List.drop_eq_getElem_cons hf
        rw [hdrop] at hr ⊢
        by_cases hov : spansOverlap conf (cands.getD f default).span = true
        · have hstep : fnoWalk conf f
              (cands.getD f default :: cands.drop (f + 1)) =
              fnoWalk ⟨conf.first,
                max conf.second (cands.getD f default).span.second⟩ (f + 1)
                (cands.drop (f + 1)) := by
            simp only [fnoWalk, if_pos hov]
          rw [hstep] at hr ⊢
          have hcf' : ∀ b, f + 1 ≤ b → b < cands.length →
              (⟨conf.first,
                max conf.second (cands.getD f default).span.second⟩ :
                  Span).first < (cands.getD b default).span.second := by
            intro b hfb hb
            exact hcf b (by omega) hb
          obtain ⟨ih1, ih2⟩ := ihn (cands.length - (f + 1)) (by omega)
            (f + 1) _ rfl hcf' hr
          refine ⟨le_trans (by simp) ih1, ?_⟩
          intro a hfa har
          by_cases haf : a = f
          · subst haf
            exact le_trans
              (by simp : (cands.getD a default).span.second ≤
                max conf.second (cands.getD a default).span.second) ih1
          · exact ih2 a (by omega) har
        · have hstop : fnoWalk conf f
              (cands.getD f default :: cands.drop (f + 1)) = f := by
            simp only [fnoWalk, if_neg hov]
          rw [hstop] at hr ⊢
          have hcff := hcf f (le_refl f) hf
          have hnov : ¬(conf.first < (cands.getD f default).span.second ∧
              (cands.getD f default).span.first < conf.second) := by
            intro hc
            apply hov
            simp only [spansOverlap, Bool.and_eq_true, decide_eq_true_eq]
            exact hc
          refine ⟨by omega, ?_⟩
          intro a hfa har
          omega
      · have hdrop : cands.drop f = [] := List.drop_eq_nil_of_le (by omega)
        rw [hdrop] at hr
        simp only [fnoWalk] at hr
        omega

/-- Cluster separation: every candidate of the conflicting group starting
at `start` ends at or before the start of every candidate at or after the
group's first non-overlapping index. -/
theorem cluster_separation (cands : List AnnotatedSpan)
    (hsorted : cands.Pairwise (fun a b => a.span.first ≤ b.span.first))
    (hne : ∀ c ∈ cands, c.span.first < c.span.second)
    (start : Nat) (hstart : start < cands.length) :
    ∀ a, start ≤ a → a < firstNonOverlappingSpanIndex cands start →
      ∀ b, firstNonOverlappingSpanIndex cands start ≤ b → b < cands.length →
        (cands.getD a default).span.second ≤
          (cands.getD b default).span.first := by
  have hsorted' := sorted_getD cands hsorted
  have hne' := nonempty_getD cands hne
  intro a hsa har b hrb hb
  have hfno : firstNonOverlappingSpanIndex cands start =
      fnoWalk (cands.getD start default).span (start + 1)
        (cands.drop (start + 1)) := rfl
  have hcf : ∀ c, start + 1 ≤ c → c < cands.length →
      (cands.getD start default).span.first <
        (cands.getD c default).span.second := by
    intro c hsc hc
    have h1 := hsorted' start c (by omega) hc
    have h2 := hne' c hc
    omega
  have hrlt : firstNonOverlappingSpanIndex cands start < cands.length := by
    omega
  rw [hfno] at hrlt
  obtain ⟨h1, h2⟩ := fnoWalk_separation cands
    (cands.length - (start + 1)) (start + 1)
    (cands.getD start default).span rfl hcf hrlt
  have hbge : (cands.getD (fnoWalk (cands.getD start default).span (start + 1)
      (cands.drop (start + 1))) default).span.first ≤
      (cands.getD b default).span.first := by
    apply hsorted'
    · rw [← hfno]; omega
    · exact hb
  rcases Nat.lt_or_ge a (start + 1) with hcase | hcase
  · have : a = start := by omega
    subst this
    rw [hfno] at *
    omega
  · have := h2 a hcase (by rw [hfno] at har; omega)
    rw [hfno] at *
    omega

theorem mem_insertDescByScore (scores : List (Nat × ℚ)) (i x : Nat) :
    ∀ l : List Nat, x ∈ insertDescByScore scores i l ↔ x = i ∨ x ∈ l := by
  intro l
  induction l with
  | nil => simp [insertDescByScore]
  | cons j rest ih =>
      unfold insertDescByScore
      split
      · simp
      · simp only [List.mem_cons, ih]
        tauto

theorem mem_sortDescByScore (scores : List (Nat × ℚ)) (x : Nat) :
    ∀ l : List Nat, x ∈ sortDescByScore scores l ↔ x ∈ l := by
  intro l
  induction l with
  | nil => simp [sortDescByScore]
  | cons j rest ih =>
      unfold sortDescByScore at *
      simp only [List.foldr_cons, mem_insertDescByScore, ih, List.mem_cons]

theorem mem_chosenInsert (cands : List AnnotatedSpan) (i x : Nat) :
    ∀ chosen : List Nat, x ∈ chosenInsert cands i chosen →
      x = i ∨ x ∈ chosen := by
  intro chosen
  induction chosen with
  | nil => simp [chosenInsert]
  | cons j rest ih =>
      unfold chosenInsert
      split
      · simp
      · split
        · simp only [List.mem_cons]
          rintro (rfl | hx)
          · tauto
          · rcases ih hx with rfl | h
            · tauto
            · tauto
        · intro hx
          tauto

/-- Inserting a candidate that overlaps nothing in the accepted set keeps
the accepted set pairwise non-overlapping. -/
theorem pairwise_chosenInsert (cands : List AnnotatedSpan) (i : Nat) :
    ∀ chosen : List Nat,
      (∀ j ∈ chosen, spansOverlap (cands.getD i default).span
        (cands.getD j default).span = false) →
      chosen.Pairwise (fun x y => spansOverlap (cands.getD x default).span
        (cands.getD y default).span = false) →
      (chosenInsert cands i chosen).Pairwise
        (fun x y => spansOverlap (cands.getD x default).span
          (cands.getD y default).span = false) := by
  intro chosen
  induction chosen with
  | nil => intro _ _; simp [chosenInsert]
  | cons j rest ih =>
      intro hall hpair
      rw [List.pairwise_cons] at hpair
      unfold chosenInsert
      split
      · rw [List.pairwise_cons]
        refine ⟨?_, List.Pairwise.cons hpair.1 hpair.2⟩
        intro y hy
        exact hall y hy
      · split
        · rw [List.pairwise_cons]
          constructor
          · intro y hy
            rcases mem_chosenInsert cands i y rest hy with rfl | h
            · exact spansOverlap_symm_false (hall j (by simp))
            · exact hpair.1 y h
          · exact ih (fun x hx => hall x (by simp [hx])) hpair.2
        · exact List.Pairwise.cons hpair.1 hpair.2

theorem greedy_mem (cands : List AnnotatedSpan) (x : Nat) :
    ∀ (l : List Nat) (chosen : List Nat),
      x ∈ l.foldl (acceptCandidate cands) chosen →
      x ∈ chosen ∨ x ∈ l := by
  intro l
  induction l with
  | nil => intro chosen h; simp at h; tauto
  | cons i rest ih =>
      intro chosen h
      rcases ih (acceptCandidate cands chosen i) h with h' | h'
      · unfold acceptCandidate at h'
        split at h'
        · tauto
        · rcases mem_chosenInsert cands i x chosen h' with rfl | h''
          · simp
          · tauto
      · simp [h']

/-- The greedy placement loop preserves pairwise non-overlap of the
accepted set. -/
theorem greedy_pairwise (cands : List AnnotatedSpan) :
    ∀ (l : List Nat) (chosen : List Nat),
      chosen.Pairwise (fun x y => spansOverlap (cands.getD x default).span
        (cands.getD y default).span = false) →
      (l.foldl (acceptCandidate cands) chosen).Pairwise
        (fun x y => spansOverlap (cands.getD x default).span
          (cands.getD y default).span = false) := by
  intro l
  induction l with
  | nil => intro chosen h; simpa using h
  | cons i rest ih =>
      intro chosen h
      simp only [List.foldl_cons]
      apply ih
      unfold acceptCandidate
      split
      · exact h
      · rename_i hnoconf
        apply pairwise_chosenInsert
        · intro j hj
          have : ¬ (chosen.any fun j =>
              spansOverlap (cands.getD i default).span
                (cands.getD j default).span) = true := by
            simpa [doesCandidateConflict] using hnoconf
          rw [List.any_eq_true] at this
          push_neg at this
          have hj' := this j hj
          cases hspan : spansOverlap (cands.getD i default).span
              (cands.getD j default).span with
          | false => rfl
          | true => exact absurd hspan hj'
        · exact h

/-- The chosen set of one `ResolveConflict` call: its members come from the
cluster `[startIndex, endIndex)` and are pairwise non-overlapping. -/
theorem resolveConflict_sound (cands : List AnnotatedSpan)
    (startIndex endIndex : Nat)
    (classify : Span → Option (List ClassificationResult))
    (chosen : List Nat)
    (h : resolveConflict cands startIndex endIndex classify = some chosen) :
    (∀ x ∈ chosen, startIndex ≤ x ∧ x < endIndex) ∧
    chosen.Pairwise (fun x y => spansOverlap (cands.getD x default).span
      (cands.getD y default).span = false) := by
  unfold resolveConflict at h
  cases hcs : collectScores cands classify (natRange startIndex endIndex) with
  | none => rw [hcs] at h; exact absurd h (by simp)
  | some scores =>
      rw [hcs] at h
      have hchosen : chosen = (sortDescByScore scores
          (natRange startIndex endIndex)).foldl (acceptCandidate cands) [] := by
        injection h with h'
        exact h'.symm
      subst hchosen
      constructor
      · intro x hx
        rcases greedy_mem cands x _ [] hx with h' | h'
        · simp at h'
        · rw [mem_sortDescByScore] at h'
          exact mem_natRange.mp h'
      · exact greedy_pairwise cands _ [] List.Pairwise.nil

/-- Soundness of the whole `ResolveConflicts` scan from position `i`: the
chosen indices lie in `[i, length)` and their spans are pairwise
non-overlapping. -/
theorem resolveConflictsAux_sound (cands : List AnnotatedSpan)
    (classify : Span → Option (List ClassificationResult))
    (hsorted : cands.Pairwise (fun a b => a.span.first ≤ b.span.first))
    (hne : ∀ c ∈ cands, c.span.first < c.span.second) :
    ∀ (n i : Nat) (idxs : List Nat), cands.length - i = n →
      resolveConflictsAux cands classify i = some idxs →
      (∀ x ∈ idxs, i ≤ x ∧ x < cands.length) ∧
      idxs.Pairwise (fun x y => spansOverlap (cands.getD x default).span
        (cands.getD y default).span = false) := by
  intro n
  induction n using Nat.strong_induction_on with
  | _ n ihn =>
      intro i idxs hn haux
      by_cases hi : i < cands.length
      · have hge : i + 1 ≤ firstNonOverlappingSpanIndex cands i :=
          fnoWalk_ge _ _ _
        have hle' : firstNonOverlappingSpanIndex cands i ≤ cands.length := by
          have h := fnoWalk_le (cands.getD i default).span (i + 1)
            (cands.drop (i + 1))
          have hdl : (cands.drop (i + 1)).length = cands.length - (i + 1) := by
            simp
          unfold firstNonOverlappingSpanIndex
          omega
        rw [resolveConflictsAux] at haux
        simp only [if_pos hi] at haux
        by_cases hconf : firstNonOverlappingSpanIndex cands i ≠ i + 1
        · rw [if_pos hconf] at haux
          cases hrc : resolveConflict cands i
              (firstNonOverlappingSpanIndex cands i) classify with
          | none => rw [hrc] at haux; exact absurd haux (by simp)
          | some chosen =>
              rw [hrc] at haux
              cases haux2 : resolveConflictsAux cands classify
                  (firstNonOverlappingSpanIndex cands i) with
              | none => rw [haux2] at haux; exact absurd haux (by simp)
              | some restIdx =>
                  rw [haux2] at haux
                  simp only [Option.map_some', Option.some.injEq] at haux
                  subst haux
                  obtain ⟨hsub, hpairC⟩ := resolveConflict_sound cands i
                    (firstNonOverlappingSpanIndex cands i) classify chosen hrc
                  obtain ⟨hboundsR, hpairR⟩ := ihn
                    (cands.length - firstNonOverlappingSpanIndex cands i)
                    (by omega) (firstNonOverlappingSpanIndex cands i)
                    restIdx rfl haux2
                  constructor
                  · intro x hx
                    rcases List.mem_append.mp hx with h' | h'
                    · have := hsub x h'
                      omega
                    · have := hboundsR x h'
                      omega
                  · rw [List.pairwise_append]
                    refine ⟨hpairC, hpairR, ?_⟩
                    intro x hx y hy
                    have hxb := hsub x hx
                    have hyb := hboundsR y hy
                    have hsep := cluster_separation cands hsorted hne i hi
                      x hxb.1 hxb.2 y hyb.1 hyb.2
                    simp only [spansOverlap, Bool.and_eq_false_iff,
                      decide_eq_false_iff_not, not_lt]
                    right
                    omega
        · rw [if_neg hconf] at haux
          push_neg at hconf
          cases haux2 : resolveConflictsAux cands classify (i + 1) with
          | none => rw [haux2] at haux; exact absurd haux (by simp)
          | some restIdx =>
              rw [haux2] at haux
              simp only [Option.map_some', Option.some.injEq] at haux
              subst haux
              obtain ⟨hboundsR, hpairR⟩ := ihn (cands.length - (i + 1))
                (by omega) (i + 1) restIdx rfl haux2
              constructor
              · intro x hx
                rcases List.mem_cons.mp hx with rfl | h'
                · omega
                · have := hboundsR x h'
                  omega
              · rw [List.pairwise_cons]
                refine ⟨?_, hpairR⟩
                intro y hy
                have hyb := hboundsR y hy
                have hsep := cluster_separation cands hsorted hne i hi
                  i (le_refl i) (by omega) y (by omega) hyb.2
                simp only [spansOverlap, Bool.and_eq_false_iff,
                  decide_eq_false_iff_not, not_lt]
                right
                omega
      · rw [resolveConflictsAux, if_neg hi] at haux
        have : idxs = [] := by
          injection haux with h
          exact h.symm
        subst this
        exact ⟨by simp, List.Pairwise.nil⟩

/-- C4. No two spans in the output of the greedy span chunker overlap
(given non-empty candidate spans, as the chunkers produce), and no two
spans selected by the conflict resolver overlap (given candidates sorted by
span start with non-empty spans, as at its call sites). -/
theorem nonOverlap_invariant :
    (∀ scoredChunks : List ScoredChunk,
      (∀ c ∈ scoredChunks, c.tokenSpan.first < c.tokenSpan.second) →
      (modelChunkSelect scoredChunks).Pairwise
        (fun a b => spansOverlap a b = false)) ∧
    (∀ (cands : List AnnotatedSpan)
      (classify : Span → Option (List ClassificationResult))
      (idxs : List Nat),
      cands.Pairwise (fun a b => a.span.first ≤ b.span.first) →
      (∀ c ∈ cands, c.span.first < c.span.second) →
      resolveConflicts cands classify = some idxs →
      (idxs.map fun x => (cands.getD x default).span).Pairwise
        (fun a b => spansOverlap a b = false)) := by
  have hsymm : ∀ a b : Span, spansOverlap a b = false →
      spansOverlap b a = false := fun _ _ h => spansOverlap_symm_false h
  constructor
  · intro scoredChunks hne
    unfold modelChunkSelect
    have hperm1 : (scoredChunks.mergeSort
        (fun a b => decide (b.score ≤ a.score))).Perm scoredChunks :=
      List.mergeSort_perm scoredChunks _
    have hne' : ∀ c ∈ scoredChunks.mergeSort
        (fun a b => decide (b.score ≤ a.score)),
        c.tokenSpan.first < c.tokenSpan.second :=
      fun c hc => hne c (hperm1.mem_iff.mp hc)
    have hpick := (pickChunksGreedy_sound _ (fun _ => false) hne').1
    have hperm2 : ((pickChunksGreedy (scoredChunks.mergeSort
        (fun a b => decide (b.score ≤ a.score))) (fun _ => false)).mergeSort
          (fun a b => spanLexLe a b)).Perm
        (pickChunksGreedy (scoredChunks.mergeSort
          (fun a b => decide (b.score ≤ a.score))) (fun _ => false)) :=
      List.mergeSort_perm _ _
    exact (hperm2.pairwise_iff fun h => hsymm _ _ h).mpr hpick
  · intro cands classify idxs hsorted hne hres
    have := (resolveConflictsAux_sound cands classify hsorted hne
      (cands.length - 0) 0 idxs rfl hres).2
    rw [List.pairwise_map]
    exact this

/-- Witness for the C4 theorem: a two-chunk input where the higher-scoring
chunk wins, and a two-candidate overlapping input where the higher-priority
candidate wins — both outputs are pairwise non-overlapping. -/
theorem nonOverlap_invariant_witness :
    (modelChunkSelect [⟨⟨0, 2⟩, 1⟩, ⟨⟨1, 3⟩, 2⟩]).Pairwise
      (fun a b => spansOverlap a b = false) ∧
    (([1].map fun x =>
        (([⟨⟨0, 5⟩, [⟨"address", 1, 1⟩]⟩,
           ⟨⟨3, 8⟩, [⟨"phone", 1, 2⟩]⟩] : List AnnotatedSpan).getD x
          default).span).Pairwise (fun a b => spansOverlap a b = false)) := by
  constructor
  · exact nonOverlap_invariant.1 [⟨⟨0, 2⟩, 1⟩, ⟨⟨1, 3⟩, 2⟩] (by decide)
  · have h1 : firstNonOverlappingSpanIndex
        [⟨⟨0, 5⟩, [⟨"address", 1, 1⟩]⟩, ⟨⟨3, 8⟩, [⟨"phone", 1, 2⟩]⟩] 0 = 2 := by
      decide
    have h2 : resolveConflict
        [⟨⟨0, 5⟩, [⟨"address", 1, 1⟩]⟩, ⟨⟨3, 8⟩, [⟨"phone", 1, 2⟩]⟩] 0 2
        (fun _ => none) = some [1] := by decide
    have h3 : resolveConflictsAux
        [⟨⟨0, 5⟩, [⟨"address", 1, 1⟩]⟩, ⟨⟨3, 8⟩, [⟨"phone", 1, 2⟩]⟩]
        (fun _ => none) 2 = some [] := by
      rw [resolveConflictsAux]
      simp
    have h4 : resolveConflicts
        [⟨⟨0, 5⟩, [⟨"address", 1, 1⟩]⟩, ⟨⟨3, 8⟩, [⟨"phone", 1, 2⟩]⟩]
        (fun _ => none) = some [1] := by
      rw [resolveConflicts, resolveConflictsAux]
      simp [h1, h2, h3]
    exact nonOverlap_invariant.2
      [⟨⟨0, 5⟩, [⟨"address", 1, 1⟩]⟩, ⟨⟨3, 8⟩, [⟨"phone", 1, 2⟩]⟩]
      (fun _ => none) [1] (by decide) (by decide) h4

end LibTextClassifier
